import Mathlib

/-!
# Verification of the `traced` trace/render core

Shallow embedding of the trace orchestration pipeline (`src/windows.rs`) and
of the path renderer (`src/plugins.rs`) of the `traced` repository, together
with proofs about the embedded definitions.

Screen coordinates (`f32` in the source) and geographic coordinates (`f64`)
are modelled with exact rational arithmetic, matching the algorithms'
intended real-number semantics; all definitions are executable.
-/

namespace Traced

/-- A 2D screen-space point (`egui::Pos2`). -/
structure Pos where
  x : ℚ
  y : ℚ
deriving DecidableEq

/-- An axis-aligned screen rectangle (`egui::Rect`), min/max corners. -/
structure Rect where
  minx : ℚ
  miny : ℚ
  maxx : ℚ
  maxy : ℚ
deriving DecidableEq

/-- `egui::Rect::from_two_pos`: the bounding box of two points. -/
def Rect.fromTwoPos (a b : Pos) : Rect :=
  ⟨min a.x b.x, min a.y b.y, max a.x b.x, max a.y b.y⟩

/-- `egui::Rect::intersects`: axis-separation overlap test between two rects. -/
def Rect.intersects (r o : Rect) : Bool :=
  decide (r.minx ≤ o.maxx) && decide (o.minx ≤ r.maxx) &&
  decide (r.miny ≤ o.maxy) && decide (o.miny ≤ r.maxy)

/-- Cohen–Sutherland region code of `p` against `rect`, from
`line_rect_intersection` in `plugins.rs`: `LEFT = 1` (`x < rect.min.x`),
`RIGHT = 2` (`x > rect.max.x`), `BOTTOM = 4` (`y > rect.max.y`),
`TOP = 8` (`y < rect.min.y`; screen coordinates grow downward). -/
def computeCode (rect : Rect) (p : Pos) : Nat :=
  (if p.x < rect.minx then 1 else if p.x > rect.maxx then 2 else 0) |||
  (if p.y < rect.miny then 8 else if p.y > rect.maxy then 4 else 0)

/-- One boundary-intersection step of `line_rect_intersection`: intersect the
segment `p1p2` with the boundary line named by the highest-priority set bit
of `code` (TOP, then BOTTOM, then RIGHT, then LEFT), exactly as the
`if code & TOP != 0 ... else ...` chain in the source. -/
def clipPoint (rect : Rect) (p1 p2 : Pos) (code : Nat) : Pos :=
  if code &&& 8 ≠ 0 then
    ⟨p1.x + (p2.x - p1.x) * (rect.miny - p1.y) / (p2.y - p1.y), rect.miny⟩
  else if code &&& 4 ≠ 0 then
    ⟨p1.x + (p2.x - p1.x) * (rect.maxy - p1.y) / (p2.y - p1.y), rect.maxy⟩
  else if code &&& 2 ≠ 0 then
    ⟨rect.maxx, p1.y + (p2.y - p1.y) * (rect.maxx - p1.x) / (p2.x - p1.x)⟩
  else
    ⟨rect.minx, p1.y + (p2.y - p1.y) * (rect.minx - p1.x) / (p2.x - p1.x)⟩

/-- The `loop` of `line_rect_intersection`, with explicit fuel.
`none` means the fuel ran out (proved unreachable for non-degenerate
rectangles in `clipLoop_isSome_of_fuel`); `some none` is the trivial-reject
exit, `some (some (a, b))` the fully-inside exit.  The source's
`code = if code1 != 0 { code1 } else { code2 }` followed by
`if code == code1 { update p1 } else { update p2 }` updates `p1` exactly
when `code1 != 0` (when `code1 == 0`, `code2 != 0` holds past the first
exit, so `code == code1` is false), which is how the branch is written
here. -/
def clipLoop (rect : Rect) : Nat → Pos → Pos → Option (Option (Pos × Pos))
  | 0, _, _ => none
  | fuel + 1, p1, p2 =>
    if computeCode rect p1 = 0 ∧ computeCode rect p2 = 0 then
      some (some (p1, p2))
    else if computeCode rect p1 &&& computeCode rect p2 ≠ 0 then
      some none
    else if computeCode rect p1 ≠ 0 then
      clipLoop rect fuel (clipPoint rect p1 p2 (computeCode rect p1)) p2
    else
      clipLoop rect fuel p1 (clipPoint rect p1 p2 (computeCode rect p2))

/-- `line_rect_intersection(start, end, rect)` from `plugins.rs`.

The Cohen–Sutherland loop performs at most one clip per violated boundary
(at most 4), so fuel 5 always suffices (`clipLoop_isSome_of_fuel`); the
fuel-exhaustion branch is unreachable for non-degenerate rectangles. -/
def line_rect_intersection (start stop : Pos) (rect : Rect) : Option (Pos × Pos) :=
  match clipLoop rect 5 start stop with
  | some res => res
  | none => none

/-! ## Arrow placement along the visible sub-segment (`TracePath::run`) -/

/-- Squared Euclidean length of the vector `v` (`Vec2::length` is its
square root; comparisons with `0.0` and the arrow count are phrased through
the square so that everything stays exact and executable). -/
def lengthSq (v : Pos) : ℚ :=
  v.x * v.x + v.y * v.y

/-- `(vis_length / arrow_spacing).floor() as i32` with `arrow_spacing = 30.0`,
computed from the squared visible length: this equals
`⌊√lsq / 30⌋ = ⌊√(lsq/900)⌋ = Nat.sqrt ⌊lsq/900⌋` (see `arrowCount_eq_floor`). -/
def arrowCountOfSq (lsq : ℚ) : Nat :=
  Nat.sqrt (Int.toNat ⌊lsq / 900⌋)

/-- The fractional positions `t = (i + 1) / (num_arrows + 1)` of the `for`
loop in `TracePath::run`, for `i in 0..n`. -/
def arrowTs (n : Nat) : List ℚ :=
  (List.range n).map (fun i : Nat => ((i : ℚ) + 1) / ((n : ℚ) + 1))

/-- `vis_start + vis_direction * t`. -/
def arrowPoint (visStart visDir : Pos) (t : ℚ) : Pos :=
  ⟨visStart.x + visDir.x * t, visStart.y + visDir.y * t⟩

/-- Arrow center positions placed for one segment `lastPos → scrPos` of the
path, following `TracePath::run` lines 68–105: early bounding-box culling,
the `direction.length() > 0.0` guard, Cohen–Sutherland clipping, the
`vis_length > 0.0` guard, then `⌊vis_length / 30⌋` arrows at fractions
`(i+1)/(num+1)` along the visible sub-segment. -/
def segmentArrows (screenRect : Rect) (lastPos scrPos : Pos) : List Pos :=
  let lineRect := Rect.fromTwoPos lastPos scrPos
  if screenRect.intersects lineRect then
    let direction : Pos := ⟨scrPos.x - lastPos.x, scrPos.y - lastPos.y⟩
    if 0 < lengthSq direction then
      match line_rect_intersection lastPos scrPos screenRect with
      | some (visStart, visEnd) =>
        let visDir : Pos := ⟨visEnd.x - visStart.x, visEnd.y - visStart.y⟩
        let visLenSq := lengthSq visDir
        if 0 < visLenSq then
          (arrowTs (arrowCountOfSq visLenSq)).map (arrowPoint visStart visDir)
        else []
      | none => []
    else []
  else []

/-- What `TracePath::run` produces for one segment between consecutive
projected nodes: the full unclipped line is always drawn
(`painter.line_segment` runs before any culling or clipping), and the
arrows are placed only on the visible clipped part. -/
structure SegmentRender where
  drawnLine : Option (Pos × Pos)
  arrows : List Pos
deriving DecidableEq

/-- Per-segment rendering step of `TracePath::run` (lines 61–106). -/
def renderSegment (screenRect : Rect) (lastPos scrPos : Pos) : SegmentRender :=
  { drawnLine := some (lastPos, scrPos)
    arrows := segmentArrows screenRect lastPos scrPos }

/-! ## Node colors (`TracePath::run` lines 33–39) -/

/-- Which color branch of the `if *idx == 0 ... else if *idx == len - 1 ...`
chain a node falls into: `startColor` is `GREEN`/`DARK_GREEN`, `endColor` is
`RED`/`DARK_RED`, `midColor` is `YELLOW`/`rgb(180,180,0)`. -/
inductive NodeColor where
  | startColor
  | endColor
  | midColor
deriving DecidableEq

/-- Color branch selected for the node with stored index `idx` in a path of
`len` nodes, following the source's evaluation order (index-0 check first). -/
def nodeColor (idx len : Nat) : NodeColor :=
  if idx = 0 then NodeColor.startColor
  else if idx = len - 1 then NodeColor.endColor
  else NodeColor.midColor

/-! ## Trace orchestration pipeline (`windows.rs`) -/

/-- `walkers::Position` (latitude/longitude, `f64` in the source). -/
structure GeoPos where
  lat : ℚ
  lon : ℚ
deriving DecidableEq

/-- `TraceNode` from `windows.rs`. -/
structure TraceNode where
  position : GeoPos
  hostname : String
  isp : String
  ip : String
deriving DecidableEq

/-- `TraceEvent` from `windows.rs`. -/
inductive TraceEvent where
  | node (n : TraceNode)
  | finish
deriving DecidableEq

/-- `IpApiResponse` from `windows.rs` (the JSON shape of an ip-api.com reply). -/
structure IpApiResponse where
  lat : ℚ
  lon : ℚ
  status : String
  isp : String
deriving DecidableEq

/-- Outcome of one HTTP geolocation request for a given IP: the transport
may fail (`client.get(...).send()` errors), the body may fail to parse as
`IpApiResponse` (`resp.json()` errors), or a parsed response is obtained. -/
inductive LocateResponse where
  | transportError
  | parseError
  | parsed (r : IpApiResponse)
deriving DecidableEq

/-- `get_location` from `windows.rs`, as a function of the HTTP outcome for
the queried IP: `None` on transport error, `None` on JSON parse error,
`None` on a parsed response whose `status != "success"`, and otherwise
`Some((Position::from_lat_lon(lat, lon), isp))`. -/
def get_location (resp : LocateResponse) : Option (GeoPos × String) :=
  match resp with
  | LocateResponse.transportError => none
  | LocateResponse.parseError => none
  | LocateResponse.parsed loc =>
    if loc.status = "success" then some (⟨loc.lat, loc.lon⟩, loc.isp) else none

/-- Target resolution in `trace` (`windows.rs` lines 245–268): a successful
`target.parse::<IpAddr>()` is used directly; otherwise `lookup_host` is
tried and its *first* address taken; `None` when the parse fails and the
lookup fails or returns an empty list. -/
def resolveTarget (parsed : Option String) (lookup : Option (List String)) : Option String :=
  match parsed with
  | some ip => some ip
  | none =>
    match lookup with
    | some ips => ips.head?
    | none => none

/-- The local-vantage prefix of the event stream (`windows.rs` lines
232–242): when `get_my_ip` returned an IP and `get_location` succeeds on
it, one `Node` with hostname `"Local"` is sent; otherwise nothing. -/
def selfNodeEvents (myIp : Option String) (env : String → LocateResponse) : List TraceEvent :=
  match myIp with
  | none => []
  | some ip =>
    match get_location (env ip) with
    | none => []
    | some (pos, isp) => [TraceEvent.node ⟨pos, "Local", isp, ip⟩]

/-- A raw hop record from the hop-discovery mechanism (`tracert` node),
with `ip_addr` already in textual form (`node.ip_addr.to_string()`). -/
structure RawHop where
  ip_addr : String
  host_name : String
deriving DecidableEq

/-- The per-hop enrichment loop (`windows.rs` lines 292–305): each hop in
discovery order is looked up; on success a `Node` carrying the hop's
hostname and the lookup's position/ISP is sent, on failure the hop is
dropped. -/
def hopEvents (env : String → LocateResponse) (hops : List RawHop) : List TraceEvent :=
  hops.filterMap fun h =>
    (get_location (env h.ip_addr)).map fun pi =>
      TraceEvent.node ⟨pi.1, h.host_name, pi.2, h.ip_addr⟩

/-- The full event stream sent on `tx` by `trace` (`windows.rs`), in send
order, as a function of: the `get_my_ip` outcome, the geolocation
environment (HTTP outcome per queried IP string), the resolved target, and
the list of raw hops delivered by the hop-discovery thread before its
channel closes (empty when the tracer fails to initialize, since the
panicking thread drops the progress sender). After the hop stream ends,
exactly one `Finish` is sent; on resolution failure `Finish` is sent
immediately with no hop processing. -/
def traceEvents (myIp : Option String) (env : String → LocateResponse)
    (resolved : Option String) (hops : List RawHop) : List TraceEvent :=
  selfNodeEvents myIp env ++
    match resolved with
    | none => [TraceEvent.finish]
    | some _ => hopEvents env hops ++ [TraceEvent.finish]

/-- `true` exactly on `Node` events. -/
def isNode (e : TraceEvent) : Bool :=
  match e with
  | TraceEvent.node _ => true
  | TraceEvent.finish => false

/-- Number of `Node` events in a stream. -/
def countNodes (es : List TraceEvent) : Nat :=
  es.countP isNode

/-- Number of `Finish` events in a stream. -/
def countFinish (es : List TraceEvent) : Nat :=
  es.countP (fun e => !isNode e)

/-! ## UI-side trace path state (`TracePath` and the poll step of `enter_ip`) -/

/-- The state mutated by the UI poll step: `TracePath`'s indexed node list
and tracing flag (`plugins.rs` lines 5–10). -/
structure TracePathState where
  nodes : List (Nat × TraceNode)
  tracing : Bool

/-- One drain step of `enter_ip` (`windows.rs` lines 160–169): a `Node`
event is appended as `(trace_path.nodes.len(), node)`; `Finish` clears the
tracing flag. -/
def pollStep (s : TracePathState) (e : TraceEvent) : TracePathState :=
  match e with
  | TraceEvent.node n => { s with nodes := s.nodes ++ [(s.nodes.length, n)] }
  | TraceEvent.finish => { s with tracing := false }

/-- Consuming a sequence of events one per poll, starting from `s`. -/
def pollAll (s : TracePathState) (es : List TraceEvent) : TracePathState :=
  es.foldl pollStep s

/-- `TracePath::set_path` (`plugins.rs` lines 13–15): replace the nodes with
the enumerated input list. -/
def set_path (s : TracePathState) (nodes : List TraceNode) : TracePathState :=
  { s with nodes := nodes.enum }

/-! ## Region code characterization -/

lemma computeCode_and_one (rect : Rect) (p : Pos) :
    computeCode rect p &&& 1 ≠ 0 ↔ p.x < rect.minx := by
  unfold computeCode
  split_ifs <;> simp_all <;> first
    | decide
    | (constructor <;> intro h <;> first
        | exact absurd (by decide) h
        | exact absurd h (by linarith))

lemma computeCode_and_two (rect : Rect) (p : Pos) :
    computeCode rect p &&& 2 ≠ 0 ↔ ¬p.x < rect.minx ∧ rect.maxx < p.x := by
  unfold computeCode
  split_ifs <;> simp_all <;> first
    | decide
    | (constructor <;> intro h <;> first
        | exact absurd (by decide) h
        | exact absurd h (by linarith))

lemma computeCode_and_eight (rect : Rect) (p : Pos) :
    computeCode rect p &&& 8 ≠ 0 ↔ p.y < rect.miny := by
  unfold computeCode
  split_ifs <;> simp_all <;> first
    | decide
    | (constructor <;> intro h <;> first
        | exact absurd (by decide) h
        | exact absurd h (by linarith))

lemma computeCode_and_four (rect : Rect) (p : Pos) :
    computeCode rect p &&& 4 ≠ 0 ↔ ¬p.y < rect.miny ∧ rect.maxy < p.y := by
  unfold computeCode
  split_ifs <;> simp_all <;> first
    | decide
    | (constructor <;> intro h <;> first
        | exact absurd (by decide) h
        | exact absurd h (by linarith))

lemma computeCode_eq_zero (rect : Rect) (p : Pos) :
    computeCode rect p = 0 ↔
      rect.minx ≤ p.x ∧ p.x ≤ rect.maxx ∧ rect.miny ≤ p.y ∧ p.y ≤ rect.maxy := by
  unfold computeCode
  split_ifs <;> simp_all [not_lt] <;> first
    | decide
    | linarith
    | (intro h
       linarith)
    | (intro h1 h2
       linarith)
    | (intro h1 h2 h3
       linarith)

lemma computeCode_mem (rect : Rect) (p : Pos) :
    computeCode rect p ∈ ([0, 1, 2, 4, 5, 6, 8, 9, 10] : List Nat) := by
  unfold computeCode
  split_ifs <;> decide

/-! ## Claims about the clipping entry/exit behaviour -/

/-- C6: for every segment whose two endpoints both lie inside the viewport
rectangle (both region codes zero), the clipping operation returns the
original two endpoints unchanged. -/
theorem C6_clip_inside_identity (rect : Rect) (p q : Pos)
    (hp : computeCode rect p = 0) (hq : computeCode rect q = 0) :
    line_rect_intersection p q rect = some (p, q) := by
  unfold line_rect_intersection clipLoop
  simp [hp, hq]

/-- Witness for C6 at a concrete inside segment. -/
theorem C6_clip_inside_identity_witness :
    computeCode ⟨0, 0, 10, 10⟩ ⟨1, 2⟩ = 0 ∧ computeCode ⟨0, 0, 10, 10⟩ ⟨9, 3⟩ = 0 ∧
      line_rect_intersection ⟨1, 2⟩ ⟨9, 3⟩ ⟨0, 0, 10, 10⟩ = some (⟨1, 2⟩, ⟨9, 3⟩) :=
  ⟨by decide, by decide,
    C6_clip_inside_identity ⟨0, 0, 10, 10⟩ ⟨1, 2⟩ ⟨9, 3⟩ (by decide) (by decide)⟩

/-- C7: in a path of `n` rendered nodes, index 0 gets the start color (for
every `n`, including `n = 1` and `n = 2`); index `n − 1` gets the end color
whenever the path has more than one node; every strictly interior index
gets the midpoint color; and in a 1-node path the single node gets the
start color because the index-0 check is evaluated first. -/
theorem C7_node_colors (n i : Nat) :
    nodeColor 0 n = NodeColor.startColor ∧
      (1 < n → nodeColor (n - 1) n = NodeColor.endColor) ∧
      (0 < i → i < n - 1 → nodeColor i n = NodeColor.midColor) ∧
      nodeColor 0 1 = NodeColor.startColor := by
  refine ⟨rfl, ?_, ?_, rfl⟩
  · intro hn
    unfold nodeColor
    rw [if_neg (by omega), if_pos rfl]
  · intro h0 hl
    unfold nodeColor
    rw [if_neg (by omega), if_neg (by omega)]

/-- Witness for C7 on a 5-node path (interior index 2) and a 2-node path. -/
theorem C7_node_colors_witness :
    (nodeColor 0 5 = NodeColor.startColor ∧
        (1 < 5 → nodeColor (5 - 1) 5 = NodeColor.endColor) ∧
        (0 < 2 → 2 < 5 - 1 → nodeColor 2 5 = NodeColor.midColor) ∧
        nodeColor 0 1 = NodeColor.startColor) ∧
      nodeColor 0 2 = NodeColor.startColor ∧
      nodeColor (2 - 1) 2 = NodeColor.endColor :=
  ⟨C7_node_colors 5 2, (C7_node_colors 2 0).1, (C7_node_colors 2 0).2.1 (by decide)⟩

/-- C8: the geolocation `locate` operation returns `Some` exactly when the
transport succeeded, the body parsed as the expected JSON shape, and the
parsed `status` field equals `"success"`; the value returned is then the
position built from `lat`/`lon` together with `isp`. -/
theorem C8_get_location_success_only (resp : LocateResponse) (r : GeoPos × String) :
    get_location resp = some r ↔
      ∃ loc : IpApiResponse, resp = LocateResponse.parsed loc ∧
        loc.status = "success" ∧ r = (⟨loc.lat, loc.lon⟩, loc.isp) := by
  cases resp with
  | transportError => simp [get_location]
  | parseError => simp [get_location]
  | parsed loc =>
    by_cases h : loc.status = "success"
    · simp [get_location, h, eq_comm]
    · simp only [get_location, if_neg h]
      simp [h]

/-! ## Structure of the emitted event stream -/

lemma selfNodeEvents_shape (myIp : Option String) (env : String → LocateResponse) :
    selfNodeEvents myIp env = [] ∨
      ∃ n : TraceNode, selfNodeEvents myIp env = [TraceEvent.node n] ∧ n.hostname = "Local" := by
  cases myIp with
  | none => exact Or.inl rfl
  | some ip =>
    rcases h : get_location (env ip) with _ | ⟨pos, isp⟩
    · exact Or.inl (by simp [selfNodeEvents, h])
    · exact Or.inr ⟨⟨pos, "Local", isp, ip⟩, by simp [selfNodeEvents, h], rfl⟩

lemma selfNodeEvents_isNode (myIp : Option String) (env : String → LocateResponse) :
    ∀ e ∈ selfNodeEvents myIp env, isNode e = true := by
  rcases selfNodeEvents_shape myIp env with h | ⟨n, h, _⟩ <;> rw [h] <;> simp [isNode]

lemma selfNodeEvents_none (env : String → LocateResponse) :
    selfNodeEvents none env = [] := rfl

lemma hopEvents_isNode (env : String → LocateResponse) (hops : List RawHop) :
    ∀ e ∈ hopEvents env hops, isNode e = true := by
  intro e he
  rcases List.mem_filterMap.mp he with ⟨h, _, hf⟩
  rcases Option.map_eq_some'.mp hf with ⟨pi, _, rfl⟩
  rfl

/-- Every stream emitted by `trace` is a list of `Node` events followed by a
single terminal `Finish`. -/
lemma traceEvents_concat (myIp : Option String) (env : String → LocateResponse)
    (resolved : Option String) (hops : List RawHop) :
    ∃ ns : List TraceEvent,
      traceEvents myIp env resolved hops = ns ++ [TraceEvent.finish] ∧
        ∀ e ∈ ns, isNode e = true := by
  unfold traceEvents
  cases resolved with
  | none => exact ⟨selfNodeEvents myIp env, rfl, selfNodeEvents_isNode myIp env⟩
  | some ip =>
    refine ⟨selfNodeEvents myIp env ++ hopEvents env hops, by simp, ?_⟩
    intro e he
    rcases List.mem_append.mp he with h | h
    · exact selfNodeEvents_isNode myIp env e h
    · exact hopEvents_isNode env hops e h

/-- C2: on every path (resolution failure, per-hop lookup failures, and a
hop-discovery thread that dies before producing hops), the stream emitted by
`trace` consists of `Node` events followed by exactly one terminal `Finish`. -/
theorem C2_nodes_before_single_finish (myIp : Option String)
    (env : String → LocateResponse) (resolved : Option String) (hops : List RawHop) :
    countFinish (traceEvents myIp env resolved hops) = 1 ∧
      (traceEvents myIp env resolved hops).getLast? = some TraceEvent.finish ∧
      ∀ e ∈ (traceEvents myIp env resolved hops).dropLast, isNode e = true := by
  rcases traceEvents_concat myIp env resolved hops with ⟨ns, heq, hall⟩
  rw [heq]
  refine ⟨?_, ?_, ?_⟩
  · unfold countFinish
    rw [List.countP_append]
    have h0 : ns.countP (fun e => !isNode e) = 0 := by
      rw [List.countP_eq_zero]
      intro e he
      simp [hall e he]
    rw [h0]
    rfl
  · exact List.getLast?_concat ns
  · rw [List.dropLast_concat]
    exact hall

/-- C1 (counterexample to the claim as stated): with an unresolvable target
(`resolveTarget none none = none`) but a successful self-IP lookup and
geolocation, the emitted stream contains one `Node` event (the local
vantage), not zero. -/
theorem C1_counterexample :
    resolveTarget none none = none ∧
      countNodes (traceEvents (some "1.2.3.4")
        (fun _ => LocateResponse.parsed ⟨1, 2, "success", "ExampleNet"⟩)
        (resolveTarget none none) []) = 1 := by
  constructor
  · rfl
  · decide

/-- C1 (amended): for every trace whose target neither parses as an IP
literal nor resolves via hostname lookup, the stream contains exactly one
`Finish`, which is its final event; no hop `Node` is emitted — at most one
`Node` can precede the `Finish`, namely the local-vantage node (hostname
`"Local"`), and if the self-IP lookup failed there are exactly zero `Node`
events. -/
theorem C1_unresolvable_trace (myIp : Option String) (env : String → LocateResponse)
    (parsed : Option String) (lookup : Option (List String)) (hops : List RawHop)
    (hres : resolveTarget parsed lookup = none) :
    countFinish (traceEvents myIp env (resolveTarget parsed lookup) hops) = 1 ∧
      (traceEvents myIp env (resolveTarget parsed lookup) hops).getLast? =
        some TraceEvent.finish ∧
      countNodes (traceEvents myIp env (resolveTarget parsed lookup) hops) ≤ 1 ∧
      (∀ n : TraceNode,
        TraceEvent.node n ∈ traceEvents myIp env (resolveTarget parsed lookup) hops →
          n.hostname = "Local") ∧
      (myIp = none →
        countNodes (traceEvents myIp env (resolveTarget parsed lookup) hops) = 0) := by
  rw [hres]
  have hred : traceEvents myIp env none hops =
      selfNodeEvents myIp env ++ [TraceEvent.finish] := rfl
  rw [hred]
  have hshape := selfNodeEvents_shape myIp env
  refine ⟨?_, ?_, ?_, ?_, ?_⟩
  · unfold countFinish
    rw [List.countP_append]
    have h0 : (selfNodeEvents myIp env).countP (fun e => !isNode e) = 0 := by
      rw [List.countP_eq_zero]
      intro e he
      simp [selfNodeEvents_isNode myIp env e he]
    rw [h0]
    rfl
  · exact List.getLast?_concat _
  · rcases hshape with h | ⟨n, h, _⟩ <;> rw [h] <;> simp [countNodes, isNode]
  · intro n hn
    rcases List.mem_append.mp hn with h | h
    · rcases hshape with hs | ⟨m, hs, hloc⟩
      · rw [hs] at h
        exact absurd h (List.not_mem_nil _)
      · rw [hs] at h
        rcases List.mem_singleton.mp h with heq
        cases heq
        exact hloc
    · rcases List.mem_singleton.mp h
  · intro hnone
    subst hnone
    rw [selfNodeEvents_none]
    rfl

/-- Witness for C1's amended theorem at a concrete unresolvable input. -/
theorem C1_unresolvable_trace_witness :
    resolveTarget none none = none ∧
      (countFinish (traceEvents none (fun _ => LocateResponse.transportError)
          (resolveTarget none none) []) = 1 ∧
        (traceEvents none (fun _ => LocateResponse.transportError)
            (resolveTarget none none) []).getLast? = some TraceEvent.finish ∧
        countNodes (traceEvents none (fun _ => LocateResponse.transportError)
            (resolveTarget none none) []) ≤ 1 ∧
        (∀ n : TraceNode,
          TraceEvent.node n ∈ traceEvents none (fun _ => LocateResponse.transportError)
              (resolveTarget none none) [] →
            n.hostname = "Local") ∧
        (none = (none : Option String) →
          countNodes (traceEvents none (fun _ => LocateResponse.transportError)
              (resolveTarget none none) []) = 0)) :=
  ⟨rfl, C1_unresolvable_trace none (fun _ => LocateResponse.transportError)
    none none [] rfl⟩

/-! ## UI poll-step index invariant -/

lemma pollStep_indices (s : TracePathState) (e : TraceEvent)
    (h : s.nodes.map Prod.fst = List.range s.nodes.length) :
    (pollStep s e).nodes.map Prod.fst = List.range (pollStep s e).nodes.length := by
  cases e with
  | finish => simpa [pollStep] using h
  | node n => simp [pollStep, h, List.range_succ]

/-- C3: starting from the cleared state set up at trace start, after the UI
poll step consumes any sequence of events (however many upstream lookups
were dropped), the stored indices are exactly `0, 1, 2, …` — contiguous
from 0, strictly increasing, no gaps — because each index is assigned as
the current length of the node list; `set_path` assigns the same
enumeration indices. -/
theorem C3_poll_indices_contiguous (es : List TraceEvent) (s0 : TracePathState)
    (nodes : List TraceNode) :
    (pollAll ⟨[], true⟩ es).nodes.map Prod.fst =
      List.range (pollAll ⟨[], true⟩ es).nodes.length ∧
      (set_path s0 nodes).nodes.map Prod.fst =
        List.range (set_path s0 nodes).nodes.length := by
  constructor
  · suffices h : ∀ s : TracePathState, s.nodes.map Prod.fst = List.range s.nodes.length →
        (pollAll s es).nodes.map Prod.fst = List.range (pollAll s es).nodes.length by
      exact h ⟨[], true⟩ (by simp)
    induction es with
    | nil => intro s hs; exact hs
    | cons e es ih => intro s hs; exact ih (pollStep s e) (pollStep_indices s e hs)
  · simp [set_path]

/-! ## Arrow placement arithmetic -/

lemma arrowTs_mem_bounds {n : Nat} {t : ℚ} (ht : t ∈ arrowTs n) : 0 < t ∧ t < 1 := by
  rcases List.mem_map.mp ht with ⟨i, hi, rfl⟩
  have hin := List.mem_range.mp hi
  have hn : (0:ℚ) < (n : ℚ) + 1 := by positivity
  constructor
  · positivity
  · rw [div_lt_one hn]
    have : (i : ℚ) < (n : ℚ) := by exact_mod_cast hin
    linarith

/-- The exact-arithmetic arrow count `Nat.sqrt ⌊lsq/900⌋` applied to a
squared length `L * L` agrees with the source's `⌊vis_length / 30⌋`. -/
lemma arrowCount_eq_floor (L : ℚ) (hL : 0 ≤ L) :
    arrowCountOfSq (L * L) = (⌊L / 30⌋).toNat := by
  set k : ℤ := ⌊L / 30⌋ with hk
  have hq : (0:ℚ) ≤ L / 30 := by positivity
  have hk0 : 0 ≤ k := Int.floor_nonneg.mpr hq
  have hlow : (k : ℚ) ≤ L / 30 := Int.floor_le _
  have hhigh : L / 30 < (k : ℚ) + 1 := Int.lt_floor_add_one _
  have hk0q : (0:ℚ) ≤ (k : ℚ) := by exact_mod_cast hk0
  have hsq_low : ((k * k : ℤ) : ℚ) ≤ L * L / 900 := by
    have h1 : (k : ℚ) * (k : ℚ) ≤ (L / 30) * (L / 30) :=
      mul_self_le_mul_self hk0q hlow
    have h2 : (L / 30) * (L / 30) = L * L / 900 := by ring
    push_cast
    linarith
  have hsq_high : L * L / 900 < (((k + 1) * (k + 1) : ℤ) : ℚ) := by
    have h1 : (L / 30) * (L / 30) < ((k : ℚ) + 1) * ((k : ℚ) + 1) :=
      mul_self_lt_mul_self hq hhigh
    have h2 : (L / 30) * (L / 30) = L * L / 900 := by ring
    push_cast
    linarith
  have hmlow : k * k ≤ ⌊L * L / 900⌋ := Int.le_floor.mpr hsq_low
  have hmhigh : ⌊L * L / 900⌋ < (k + 1) * (k + 1) := Int.floor_lt.mpr hsq_high
  have hm0 : 0 ≤ ⌊L * L / 900⌋ := le_trans (mul_nonneg hk0 hk0) hmlow
  have e1 : ((k.toNat : ℤ)) = k := Int.toNat_of_nonneg hk0
  have e2 : ((⌊L * L / 900⌋.toNat : ℤ)) = ⌊L * L / 900⌋ := Int.toNat_of_nonneg hm0
  have h1 : k.toNat * k.toNat ≤ ⌊L * L / 900⌋.toNat := by
    have : ((k.toNat * k.toNat : ℕ) : ℤ) ≤ ((⌊L * L / 900⌋.toNat : ℕ) : ℤ) := by
      push_cast
      rw [e1, e2]
      exact hmlow
    exact_mod_cast this
  have h2 : ⌊L * L / 900⌋.toNat < (k.toNat + 1) * (k.toNat + 1) := by
    have : ((⌊L * L / 900⌋.toNat : ℕ) : ℤ) < (((k.toNat + 1) * (k.toNat + 1) : ℕ) : ℤ) := by
      push_cast
      rw [e1, e2]
      exact_mod_cast hmhigh
    exact_mod_cast this
  unfold arrowCountOfSq
  exact (Nat.eq_sqrt.mpr ⟨h1, h2⟩).symm

lemma arrowPoint_ne_ends (s e : Pos)
    (hlen : 0 < lengthSq ⟨e.x - s.x, e.y - s.y⟩)
    {t : ℚ} (ht0 : 0 < t) (ht1 : t < 1) :
    arrowPoint s ⟨e.x - s.x, e.y - s.y⟩ t ≠ s ∧
      arrowPoint s ⟨e.x - s.x, e.y - s.y⟩ t ≠ e := by
  obtain ⟨sx, sy⟩ := s
  obtain ⟨ex, ey⟩ := e
  simp only [arrowPoint, lengthSq] at *
  constructor
  · intro h
    rw [Pos.mk.injEq] at h
    obtain ⟨hx, hy⟩ := h
    have hx' : (ex - sx) * t = 0 := by linarith
    have hy' : (ey - sy) * t = 0 := by linarith
    have hxe : ex - sx = 0 := by
      rcases mul_eq_zero.mp hx' with h | h
      · exact h
      · exact absurd h (ne_of_gt ht0)
    have hye : ey - sy = 0 := by
      rcases mul_eq_zero.mp hy' with h | h
      · exact h
      · exact absurd h (ne_of_gt ht0)
    rw [hxe, hye] at hlen
    norm_num at hlen
  · intro h
    rw [Pos.mk.injEq] at h
    obtain ⟨hx, hy⟩ := h
    have hx' : (ex - sx) * (1 - t) = 0 := by linarith [hx]
    have hy' : (ey - sy) * (1 - t) = 0 := by linarith [hy]
    have ht : (1 : ℚ) - t ≠ 0 := by linarith
    have hxe : ex - sx = 0 := by
      rcases mul_eq_zero.mp hx' with h | h
      · exact h
      · exact absurd h ht
    have hye : ey - sy = 0 := by
      rcases mul_eq_zero.mp hy' with h | h
      · exact h
      · exact absurd h ht
    rw [hxe, hye] at hlen
    norm_num at hlen

/-- C4: for a visible clipped sub-segment of positive length `L` and the
fixed spacing 30, the number of arrows equals `⌊L / 30⌋`; arrow `i` sits at
fractional position `(i+1)/(count+1)` along the sub-segment, strictly
between its endpoints (never exactly at either endpoint); in particular a
visible length of 95 yields 3 arrows at fractions 1/4, 1/2, 3/4. -/
theorem C4_arrow_placement (L : ℚ) (n : Nat) (hL : 0 < L) :
    arrowCountOfSq (L * L) = (⌊L / 30⌋).toNat ∧
      (arrowTs n).length = n ∧
      (∀ i : Nat, i < n →
        (arrowTs n).get? i = some (((i : ℚ) + 1) / ((n : ℚ) + 1))) ∧
      (∀ t ∈ arrowTs n, 0 < t ∧ t < 1) ∧
      (∀ s e : Pos, 0 < lengthSq ⟨e.x - s.x, e.y - s.y⟩ →
        ∀ t ∈ arrowTs n,
          arrowPoint s ⟨e.x - s.x, e.y - s.y⟩ t ≠ s ∧
            arrowPoint s ⟨e.x - s.x, e.y - s.y⟩ t ≠ e) ∧
      arrowCountOfSq (95 * 95) = 3 ∧
      arrowTs 3 = [1/4, 1/2, 3/4] := by
  have hfloor : ⌊(95 * 95 : ℚ) / 900⌋ = (10:ℤ) := by
    rw [Int.floor_eq_iff] <;> norm_num
  have hcount : arrowCountOfSq (95 * 95) = 3 := by
    unfold arrowCountOfSq
    rw [hfloor]
    exact (Nat.eq_sqrt.mpr (by norm_num)).symm
  have hlen3 : (arrowTs n).length = n := by
    unfold arrowTs
    rw [List.length_map, List.length_range]
  have hts3 : arrowTs 3 = [1/4, 1/2, 3/4] := by
    unfold arrowTs
    norm_num [List.range_succ]
  refine ⟨arrowCount_eq_floor L (le_of_lt hL), hlen3, ?_, ?_, ?_, hcount, hts3⟩
  · intro i hi
    unfold arrowTs
    rw [List.get?_map, List.get?_range hi]
    rfl
  · intro t ht
    exact arrowTs_mem_bounds ht
  · intro s e hlen t ht
    rcases arrowTs_mem_bounds ht with ⟨h0, h1⟩
    exact arrowPoint_ne_ends s e hlen h0 h1

/-- Witness for C4 at `L = 95`, `n = 3`. -/
theorem C4_arrow_placement_witness :
    (0:ℚ) < 95 ∧
      (arrowCountOfSq (95 * 95) = (⌊(95:ℚ) / 30⌋).toNat ∧
        (arrowTs 3).length = 3 ∧
        (∀ i : Nat, i < 3 →
          (arrowTs 3).get? i = some (((i : ℚ) + 1) / ((3 : ℚ) + 1))) ∧
        (∀ t ∈ arrowTs 3, 0 < t ∧ t < 1) ∧
        (∀ s e : Pos, 0 < lengthSq ⟨e.x - s.x, e.y - s.y⟩ →
          ∀ t ∈ arrowTs 3,
            arrowPoint s ⟨e.x - s.x, e.y - s.y⟩ t ≠ s ∧
              arrowPoint s ⟨e.x - s.x, e.y - s.y⟩ t ≠ e) ∧
        arrowCountOfSq (95 * 95) = 3 ∧
        arrowTs 3 = [1/4, 1/2, 3/4]) :=
  ⟨by norm_num, C4_arrow_placement 95 3 (by norm_num)⟩

/-! ## Clipping geometry -/

/-- The possible values of `computeCode` (an x-part in `{0,1,2}` ORed with a
y-part in `{0,4,8}`). -/
def codeList : List Nat :=
  [0, 1, 2, 4, 5, 6, 8, 9, 10]

lemma code_and_zero_bits :
    ∀ c1 ∈ codeList, ∀ c2 ∈ codeList, c1 &&& c2 = 0 →
      (c1 &&& 8 ≠ 0 → c2 &&& 8 = 0) ∧ (c1 &&& 4 ≠ 0 → c2 &&& 4 = 0) ∧
        (c1 &&& 2 ≠ 0 → c2 &&& 2 = 0) ∧ (c1 &&& 1 ≠ 0 → c2 &&& 1 = 0) := by
  decide

lemma code_ne_zero_bits :
    ∀ c ∈ codeList, c ≠ 0 →
      c &&& 8 = 0 → c &&& 4 = 0 → c &&& 2 = 0 → c &&& 1 ≠ 0 := by
  decide

lemma code_common_bit :
    ∀ c1 ∈ codeList, ∀ c2 ∈ codeList,
      ((c1 &&& 1 ≠ 0 ∧ c2 &&& 1 ≠ 0) ∨ (c1 &&& 2 ≠ 0 ∧ c2 &&& 2 ≠ 0) ∨
        (c1 &&& 8 ≠ 0 ∧ c2 &&& 8 ≠ 0) ∨ (c1 &&& 4 ≠ 0 ∧ c2 &&& 4 ≠ 0)) →
      c1 &&& c2 ≠ 0 := by
  decide

lemma Pos.ext' {a b : Pos} (hx : a.x = b.x) (hy : a.y = b.y) : a = b := by
  cases a
  cases b
  cases hx
  cases hy
  rfl

/-- Affine interpolation `p1 + t * (p2 - p1)` between two screen points. -/
def lerp (a b : Pos) (t : ℚ) : Pos :=
  ⟨a.x + (b.x - a.x) * t, a.y + (b.y - a.y) * t⟩

/-- `p` lies on the closed segment from `a` to `b`. -/
def onSeg (a b p : Pos) : Prop :=
  ∃ t : ℚ, 0 ≤ t ∧ t ≤ 1 ∧ p = lerp a b t

lemma onSeg_left (a b : Pos) : onSeg a b a :=
  ⟨0, le_refl 0, zero_le_one, Pos.ext' (by simp [lerp]) (by simp [lerp])⟩

lemma onSeg_right (a b : Pos) : onSeg a b b :=
  ⟨1, zero_le_one, le_refl 1, Pos.ext' (by simp [lerp]) (by simp [lerp])⟩

/-- A point interpolated (with parameter in `[0,1]`) between two points of a
segment is itself on the segment. -/
lemma onSeg_lerp {o1 o2 p1 p2 : Pos} (h1 : onSeg o1 o2 p1) (h2 : onSeg o1 o2 p2)
    {s : ℚ} (hs0 : 0 ≤ s) (hs1 : s ≤ 1) : onSeg o1 o2 (lerp p1 p2 s) := by
  obtain ⟨t1, ht10, ht11, rfl⟩ := h1
  obtain ⟨t2, ht20, ht21, rfl⟩ := h2
  refine ⟨t1 + s * (t2 - t1), by nlinarith, by nlinarith, ?_⟩
  apply Pos.ext' <;> simp [lerp] <;> ring

/-- The boundary intersection of a segment with a horizontal line `y = b`
separating its endpoints, written exactly as the TOP/BOTTOM arms of the
source, is an on-segment point. -/
lemma clip_y_spec (p1 p2 : Pos) (b : ℚ) (hne : p1.y ≠ p2.y)
    (hbtw : (p1.y - b) * (p2.y - b) ≤ 0) :
    ∃ t : ℚ, 0 ≤ t ∧ t ≤ 1 ∧
      (⟨p1.x + (p2.x - p1.x) * (b - p1.y) / (p2.y - p1.y), b⟩ : Pos) = lerp p1 p2 t := by
  have hden : p2.y - p1.y ≠ 0 := sub_ne_zero_of_ne (Ne.symm hne)
  refine ⟨(b - p1.y) / (p2.y - p1.y), ?_, ?_, ?_⟩
  · rcases lt_or_gt_of_ne hne with h | h
    · have hb1 : p1.y ≤ b := by nlinarith
      exact div_nonneg (by linarith) (by linarith)
    · have hb1 : b ≤ p1.y := by nlinarith
      rw [div_nonneg_iff]
      right
      constructor <;> linarith
  · rcases lt_or_gt_of_ne hne with h | h
    · have hb2 : b ≤ p2.y := by nlinarith
      rw [div_le_one (by linarith)]
      linarith
    · have hb2 : p2.y ≤ b := by nlinarith
      rw [div_le_iff_of_neg (by linarith)]
      linarith
  · apply Pos.ext'
    · simp [lerp, mul_div_assoc]
    · simp only [lerp]
      field_simp

/-- The boundary intersection of a segment with a vertical line `x = b`
separating its endpoints, written exactly as the RIGHT/LEFT arms of the
source, is an on-segment point. -/
lemma clip_x_spec (p1 p2 : Pos) (b : ℚ) (hne : p1.x ≠ p2.x)
    (hbtw : (p1.x - b) * (p2.x - b) ≤ 0) :
    ∃ t : ℚ, 0 ≤ t ∧ t ≤ 1 ∧
      (⟨b, p1.y + (p2.y - p1.y) * (b - p1.x) / (p2.x - p1.x)⟩ : Pos) = lerp p1 p2 t := by
  have hden : p2.x - p1.x ≠ 0 := sub_ne_zero_of_ne (Ne.symm hne)
  refine ⟨(b - p1.x) / (p2.x - p1.x), ?_, ?_, ?_⟩
  · rcases lt_or_gt_of_ne hne with h | h
    · have hb1 : p1.x ≤ b := by nlinarith
      exact div_nonneg (by linarith) (by linarith)
    · have hb1 : b ≤ p1.x := by nlinarith
      rw [div_nonneg_iff]
      right
      constructor <;> linarith
  · rcases lt_or_gt_of_ne hne with h | h
    · have hb2 : b ≤ p2.x := by nlinarith
      rw [div_le_one (by linarith)]
      linarith
    · have hb2 : p2.x ≤ b := by nlinarith
      rw [div_le_iff_of_neg (by linarith)]
      linarith
  · apply Pos.ext'
    · simp only [lerp]
      field_simp
    · simp [lerp, mul_div_assoc]

/-- The set of viewport boundaries violated by at least one of the two
current endpoints: `0` = left (`x < min.x`), `1` = right (`x > max.x`),
`2` = top (`y < min.y`), `3` = bottom (`y > max.y`).  Each Cohen–Sutherland
clip removes at least one element and adds none, which bounds the number of
loop iterations. -/
def violSet (rect : Rect) (p1 p2 : Pos) : Finset (Fin 4) :=
  Finset.univ.filter fun i =>
    if i.val = 0 then p1.x < rect.minx ∨ p2.x < rect.minx
    else if i.val = 1 then rect.maxx < p1.x ∨ rect.maxx < p2.x
    else if i.val = 2 then p1.y < rect.miny ∨ p2.y < rect.miny
    else rect.maxy < p1.y ∨ rect.maxy < p2.y

lemma violSet_mem_zero (rect : Rect) (p1 p2 : Pos) :
    (⟨0, by norm_num⟩ : Fin 4) ∈ violSet rect p1 p2 ↔
      p1.x < rect.minx ∨ p2.x < rect.minx := by
  simp [violSet]

lemma violSet_mem_one (rect : Rect) (p1 p2 : Pos) :
    (⟨1, by norm_num⟩ : Fin 4) ∈ violSet rect p1 p2 ↔
      rect.maxx < p1.x ∨ rect.maxx < p2.x := by
  simp [violSet]

lemma violSet_mem_two (rect : Rect) (p1 p2 : Pos) :
    (⟨2, by norm_num⟩ : Fin 4) ∈ violSet rect p1 p2 ↔
      p1.y < rect.miny ∨ p2.y < rect.miny := by
  simp [violSet]

lemma violSet_mem_three (rect : Rect) (p1 p2 : Pos) :
    (⟨3, by norm_num⟩ : Fin 4) ∈ violSet rect p1 p2 ↔
      rect.maxy < p1.y ∨ rect.maxy < p2.y := by
  have h3 : ((3 : Fin 4) : ℕ) = 3 := rfl
  simp [violSet, h3]

lemma lerp_coord_lower (a b c t : ℚ) (h0 : 0 ≤ t) (h1 : t ≤ 1)
    (hlt : a + (b - a) * t < c) : a < c ∨ b < c := by
  by_contra h
  push_neg at h
  nlinarith [mul_nonneg (sub_nonneg.mpr h1) (sub_nonneg.mpr h.1),
    mul_nonneg h0 (sub_nonneg.mpr h.2)]

lemma lerp_coord_upper (a b c t : ℚ) (h0 : 0 ≤ t) (h1 : t ≤ 1)
    (hlt : c < a + (b - a) * t) : c < a ∨ c < b := by
  by_contra h
  push_neg at h
  nlinarith [mul_nonneg (sub_nonneg.mpr h1) (sub_nonneg.mpr h.1),
    mul_nonneg h0 (sub_nonneg.mpr h.2)]

/-- Replacing the first endpoint by an on-segment interpolate never adds a
violated boundary. -/
lemma violSet_subset_p1 (rect : Rect) (p1 p2 : Pos) {t : ℚ}
    (h0 : 0 ≤ t) (h1 : t ≤ 1) :
    violSet rect (lerp p1 p2 t) p2 ⊆ violSet rect p1 p2 := by
  intro i hi
  simp only [violSet, Finset.mem_filter, Finset.mem_univ, true_and] at hi ⊢
  simp only [lerp] at hi
  split_ifs at hi ⊢
  · rcases hi with h | h
    · exact (lerp_coord_lower _ _ _ _ h0 h1 h).imp id id
    · exact Or.inr h
  · rcases hi with h | h
    · exact (lerp_coord_upper _ _ _ _ h0 h1 h).imp id id
    · exact Or.inr h
  · rcases hi with h | h
    · exact (lerp_coord_lower _ _ _ _ h0 h1 h).imp id id
    · exact Or.inr h
  · rcases hi with h | h
    · exact (lerp_coord_upper _ _ _ _ h0 h1 h).imp id id
    · exact Or.inr h

/-- Replacing the second endpoint by an on-segment interpolate never adds a
violated boundary. -/
lemma violSet_subset_p2 (rect : Rect) (p1 p2 : Pos) {t : ℚ}
    (h0 : 0 ≤ t) (h1 : t ≤ 1) :
    violSet rect p1 (lerp p1 p2 t) ⊆ violSet rect p1 p2 := by
  intro i hi
  simp only [violSet, Finset.mem_filter, Finset.mem_univ, true_and] at hi ⊢
  simp only [lerp] at hi
  split_ifs at hi ⊢
  · rcases hi with h | h
    · exact Or.inl h
    · exact (lerp_coord_lower _ _ _ _ h0 h1 h).imp id id
  · rcases hi with h | h
    · exact Or.inl h
    · exact (lerp_coord_upper _ _ _ _ h0 h1 h).imp id id
  · rcases hi with h | h
    · exact Or.inl h
    · exact (lerp_coord_lower _ _ _ _ h0 h1 h).imp id id
  · rcases hi with h | h
    · exact Or.inl h
    · exact (lerp_coord_upper _ _ _ _ h0 h1 h).imp id id

/-- One clip of the first endpoint (the `code == code1` arm): the clipped
point is an on-segment interpolate of the current endpoints, and the clip
removes the processed boundary from the violated set. -/
lemma clipPoint_spec_p1 (rect : Rect) (p1 p2 : Pos)
    (hxnd : rect.minx ≤ rect.maxx) (hynd : rect.miny ≤ rect.maxy)
    (hne : computeCode rect p1 ≠ 0)
    (hand : computeCode rect p1 &&& computeCode rect p2 = 0) :
    ∃ t : ℚ, 0 ≤ t ∧ t ≤ 1 ∧
      clipPoint rect p1 p2 (computeCode rect p1) = lerp p1 p2 t ∧
      ∃ i : Fin 4, i ∈ violSet rect p1 p2 ∧
        i ∉ violSet rect (clipPoint rect p1 p2 (computeCode rect p1)) p2 := by
  have htr := code_and_zero_bits _ (computeCode_mem rect p1) _ (computeCode_mem rect p2) hand
  by_cases h8 : computeCode rect p1 &&& 8 ≠ 0
  · have hy1 : p1.y < rect.miny := (computeCode_and_eight rect p1).mp h8
    have hy2 : rect.miny ≤ p2.y :=
      le_of_not_lt fun hlt => (computeCode_and_eight rect p2).mpr hlt (htr.1 h8)
    have hcp : clipPoint rect p1 p2 (computeCode rect p1) =
        ⟨p1.x + (p2.x - p1.x) * (rect.miny - p1.y) / (p2.y - p1.y), rect.miny⟩ := by
      unfold clipPoint
      rw [if_pos h8]
    obtain ⟨t, ht0, ht1, heq⟩ :=
      clip_y_spec p1 p2 rect.miny (ne_of_lt (lt_of_lt_of_le hy1 hy2)) (by nlinarith)
    refine ⟨t, ht0, ht1, by rw [hcp]; exact heq, ⟨2, by norm_num⟩, ?_, ?_⟩
    · exact (violSet_mem_two rect p1 p2).mpr (Or.inl hy1)
    · rw [hcp, violSet_mem_two]
      push_neg
      exact ⟨le_refl _, hy2⟩
  · by_cases h4 : computeCode rect p1 &&& 4 ≠ 0
    · obtain ⟨hy1a, hy1b⟩ := (computeCode_and_four rect p1).mp h4
      have hy2 : p2.y ≤ rect.maxy := by
        by_contra hgt
        push_neg at hgt
        exact (computeCode_and_four rect p2).mpr ⟨by linarith, hgt⟩ (htr.2.1 h4)
      have hcp : clipPoint rect p1 p2 (computeCode rect p1) =
          ⟨p1.x + (p2.x - p1.x) * (rect.maxy - p1.y) / (p2.y - p1.y), rect.maxy⟩ := by
        unfold clipPoint
        rw [if_neg h8, if_pos h4]
      obtain ⟨t, ht0, ht1, heq⟩ :=
        clip_y_spec p1 p2 rect.maxy (ne_of_gt (lt_of_le_of_lt hy2 hy1b)) (by nlinarith)
      refine ⟨t, ht0, ht1, by rw [hcp]; exact heq, ⟨3, by norm_num⟩, ?_, ?_⟩
      · exact (violSet_mem_three rect p1 p2).mpr (Or.inl hy1b)
      · rw [hcp, violSet_mem_three]
        push_neg
        exact ⟨le_refl _, hy2⟩
    · by_cases h2 : computeCode rect p1 &&& 2 ≠ 0
      · obtain ⟨hx1a, hx1b⟩ := (computeCode_and_two rect p1).mp h2
        have hx2 : p2.x ≤ rect.maxx := by
          by_contra hgt
          push_neg at hgt
          exact (computeCode_and_two rect p2).mpr ⟨by linarith, hgt⟩ (htr.2.2.1 h2)
        have hcp : clipPoint rect p1 p2 (computeCode rect p1) =
            ⟨rect.maxx, p1.y + (p2.y - p1.y) * (rect.maxx - p1.x) / (p2.x - p1.x)⟩ := by
          unfold clipPoint
          rw [if_neg h8, if_neg h4, if_pos h2]
        obtain ⟨t, ht0, ht1, heq⟩ :=
          clip_x_spec p1 p2 rect.maxx (ne_of_gt (lt_of_le_of_lt hx2 hx1b)) (by nlinarith)
        refine ⟨t, ht0, ht1, by rw [hcp]; exact heq, ⟨1, by norm_num⟩, ?_, ?_⟩
        · exact (violSet_mem_one rect p1 p2).mpr (Or.inl hx1b)
        · rw [hcp, violSet_mem_one]
          push_neg
          exact ⟨le_refl _, hx2⟩
      · have h1 : computeCode rect p1 &&& 1 ≠ 0 :=
          code_ne_zero_bits _ (computeCode_mem rect p1) hne
            (not_ne_iff.mp h8) (not_ne_iff.mp h4) (not_ne_iff.mp h2)
        have hx1 : p1.x < rect.minx := (computeCode_and_one rect p1).mp h1
        have hx2 : rect.minx ≤ p2.x :=
          le_of_not_lt fun hlt => (computeCode_and_one rect p2).mpr hlt (htr.2.2.2 h1)
        have hcp : clipPoint rect p1 p2 (computeCode rect p1) =
            ⟨rect.minx, p1.y + (p2.y - p1.y) * (rect.minx - p1.x) / (p2.x - p1.x)⟩ := by
          unfold clipPoint
          rw [if_neg h8, if_neg h4, if_neg h2]
        obtain ⟨t, ht0, ht1, heq⟩ :=
          clip_x_spec p1 p2 rect.minx (ne_of_lt (lt_of_lt_of_le hx1 hx2)) (by nlinarith)
        refine ⟨t, ht0, ht1, by rw [hcp]; exact heq, ⟨0, by norm_num⟩, ?_, ?_⟩
        · exact (violSet_mem_zero rect p1 p2).mpr (Or.inl hx1)
        · rw [hcp, violSet_mem_zero]
          push_neg
          exact ⟨le_refl _, hx2⟩

/-- One clip of the second endpoint (the `code == code2` arm, taken when the
first endpoint is already inside): the clipped point is an on-segment
interpolate, and the clip removes the processed boundary from the violated
set. -/
lemma clipPoint_spec_p2 (rect : Rect) (p1 p2 : Pos)
    (h1z : computeCode rect p1 = 0) (hne2 : computeCode rect p2 ≠ 0) :
    ∃ t : ℚ, 0 ≤ t ∧ t ≤ 1 ∧
      clipPoint rect p1 p2 (computeCode rect p2) = lerp p1 p2 t ∧
      ∃ i : Fin 4, i ∈ violSet rect p1 p2 ∧
        i ∉ violSet rect p1 (clipPoint rect p1 p2 (computeCode rect p2)) := by
  obtain ⟨ha, hb, hc, hd⟩ := (computeCode_eq_zero rect p1).mp h1z
  by_cases h8 : computeCode rect p2 &&& 8 ≠ 0
  · have hy2 : p2.y < rect.miny := (computeCode_and_eight rect p2).mp h8
    have hcp : clipPoint rect p1 p2 (computeCode rect p2) =
        ⟨p1.x + (p2.x - p1.x) * (rect.miny - p1.y) / (p2.y - p1.y), rect.miny⟩ := by
      unfold clipPoint
      rw [if_pos h8]
    obtain ⟨t, ht0, ht1, heq⟩ :=
      clip_y_spec p1 p2 rect.miny (ne_of_gt (lt_of_lt_of_le hy2 hc)) (by nlinarith)
    refine ⟨t, ht0, ht1, by rw [hcp]; exact heq, ⟨2, by norm_num⟩, ?_, ?_⟩
    · exact (violSet_mem_two rect p1 p2).mpr (Or.inr hy2)
    · rw [hcp, violSet_mem_two]
      push_neg
      exact ⟨hc, le_refl _⟩
  · by_cases h4 : computeCode rect p2 &&& 4 ≠ 0
    · obtain ⟨hy2a, hy2b⟩ := (computeCode_and_four rect p2).mp h4
      have hcp : clipPoint rect p1 p2 (computeCode rect p2) =
          ⟨p1.x + (p2.x - p1.x) * (rect.maxy - p1.y) / (p2.y - p1.y), rect.maxy⟩ := by
        unfold clipPoint
        rw [if_neg h8, if_pos h4]
      obtain ⟨t, ht0, ht1, heq⟩ :=
        clip_y_spec p1 p2 rect.maxy (ne_of_lt (lt_of_le_of_lt hd hy2b)) (by nlinarith)
      refine ⟨t, ht0, ht1, by rw [hcp]; exact heq, ⟨3, by norm_num⟩, ?_, ?_⟩
      · exact (violSet_mem_three rect p1 p2).mpr (Or.inr hy2b)
      · rw [hcp, violSet_mem_three]
        push_neg
        exact ⟨hd, le_refl _⟩
    · by_cases h2 : computeCode rect p2 &&& 2 ≠ 0
      · obtain ⟨hx2a, hx2b⟩ := (computeCode_and_two rect p2).mp h2
        have hcp : clipPoint rect p1 p2 (computeCode rect p2) =
            ⟨rect.maxx, p1.y + (p2.y - p1.y) * (rect.maxx - p1.x) / (p2.x - p1.x)⟩ := by
          unfold clipPoint
          rw [if_neg h8, if_neg h4, if_pos h2]
        obtain ⟨t, ht0, ht1, heq⟩ :=
          clip_x_spec p1 p2 rect.maxx (ne_of_lt (lt_of_le_of_lt hb hx2b)) (by nlinarith)
        refine ⟨t, ht0, ht1, by rw [hcp]; exact heq, ⟨1, by norm_num⟩, ?_, ?_⟩
        · exact (violSet_mem_one rect p1 p2).mpr (Or.inr hx2b)
        · rw [hcp, violSet_mem_one]
          push_neg
          exact ⟨hb, le_refl _⟩
      · have h1 : computeCode rect p2 &&& 1 ≠ 0 :=
          code_ne_zero_bits _ (computeCode_mem rect p2) hne2
            (not_ne_iff.mp h8) (not_ne_iff.mp h4) (not_ne_iff.mp h2)
        have hx2 : p2.x < rect.minx := (computeCode_and_one rect p2).mp h1
        have hcp : clipPoint rect p1 p2 (computeCode rect p2) =
            ⟨rect.minx, p1.y + (p2.y - p1.y) * (rect.minx - p1.x) / (p2.x - p1.x)⟩ := by
          unfold clipPoint
          rw [if_neg h8, if_neg h4, if_neg h2]
        obtain ⟨t, ht0, ht1, heq⟩ :=
          clip_x_spec p1 p2 rect.minx (ne_of_gt (lt_of_lt_of_le hx2 ha)) (by nlinarith)
        refine ⟨t, ht0, ht1, by rw [hcp]; exact heq, ⟨0, by norm_num⟩, ?_, ?_⟩
        · exact (violSet_mem_zero rect p1 p2).mpr (Or.inr hx2)
        · rw [hcp, violSet_mem_zero]
          push_neg
          exact ⟨ha, le_refl _⟩

/-- Both points of a fully-inside exit have region code zero. -/
lemma clipLoop_some_codes (rect : Rect) :
    ∀ (fuel : Nat) (p1 p2 a b : Pos),
      clipLoop rect fuel p1 p2 = some (some (a, b)) →
        computeCode rect a = 0 ∧ computeCode rect b = 0 := by
  intro fuel
  induction fuel with
  | zero =>
    intro p1 p2 a b h
    simp [clipLoop] at h
  | succ n ih =>
    intro p1 p2 a b h
    simp only [clipLoop] at h
    split_ifs at h with h1 h2 h3
    · rw [Option.some.injEq, Option.some.injEq, Prod.mk.injEq] at h
      obtain ⟨rfl, rfl⟩ := h
      exact h1
    · simp at h
    · exact ih _ _ _ _ h
    · exact ih _ _ _ _ h

/-- Both points of a fully-inside exit lie on the original segment. -/
lemma clipLoop_some_onSeg (rect : Rect) (hxnd : rect.minx ≤ rect.maxx)
    (hynd : rect.miny ≤ rect.maxy) (o1 o2 : Pos) :
    ∀ (fuel : Nat) (p1 p2 a b : Pos), onSeg o1 o2 p1 → onSeg o1 o2 p2 →
      clipLoop rect fuel p1 p2 = some (some (a, b)) →
        onSeg o1 o2 a ∧ onSeg o1 o2 b := by
  intro fuel
  induction fuel with
  | zero =>
    intro p1 p2 a b _ _ h
    simp [clipLoop] at h
  | succ n ih =>
    intro p1 p2 a b hs1 hs2 h
    simp only [clipLoop] at h
    split_ifs at h with h1 h2 h3
    · rw [Option.some.injEq, Option.some.injEq, Prod.mk.injEq] at h
      obtain ⟨rfl, rfl⟩ := h
      exact ⟨hs1, hs2⟩
    · simp at h
    · obtain ⟨t, ht0, ht1, heq, _⟩ :=
        clipPoint_spec_p1 rect p1 p2 hxnd hynd h3 (not_ne_iff.mp h2)
      refine ih _ _ _ _ ?_ hs2 h
      rw [heq]
      exact onSeg_lerp hs1 hs2 ht0 ht1
    · have hne2 : computeCode rect p2 ≠ 0 := fun hz => h1 ⟨not_ne_iff.mp h3, hz⟩
      obtain ⟨t, ht0, ht1, heq, _⟩ :=
        clipPoint_spec_p2 rect p1 p2 (not_ne_iff.mp h3) hne2
      refine ih _ _ _ _ hs1 ?_ h
      rw [heq]
      exact onSeg_lerp hs1 hs2 ht0 ht1

/-- Each loop iteration either exits or strictly shrinks the violated-
boundary set, so any fuel exceeding that set's size suffices. -/
lemma clipLoop_isSome_of_fuel (rect : Rect) (hxnd : rect.minx ≤ rect.maxx)
    (hynd : rect.miny ≤ rect.maxy) :
    ∀ (fuel : Nat) (p1 p2 : Pos), (violSet rect p1 p2).card < fuel →
      (clipLoop rect fuel p1 p2).isSome := by
  intro fuel
  induction fuel with
  | zero =>
    intro p1 p2 h
    exact absurd h (Nat.not_lt_zero _)
  | succ n ih =>
    intro p1 p2 hcard
    simp only [clipLoop]
    split_ifs with h1 h2 h3
    · simp
    · simp
    · obtain ⟨t, ht0, ht1, heq, i, hiold, hinew⟩ :=
        clipPoint_spec_p1 rect p1 p2 hxnd hynd h3 (not_ne_iff.mp h2)
      have hsub : violSet rect (clipPoint rect p1 p2 (computeCode rect p1)) p2 ⊆
          violSet rect p1 p2 := by
        rw [heq]
        exact violSet_subset_p1 rect p1 p2 ht0 ht1
      have hss := (Finset.ssubset_iff_of_subset hsub).mpr ⟨i, hiold, hinew⟩
      exact ih _ _ (lt_of_lt_of_le (Finset.card_lt_card hss) (Nat.lt_succ_iff.mp hcard))
    · have hne2 : computeCode rect p2 ≠ 0 := fun hz => h1 ⟨not_ne_iff.mp h3, hz⟩
      obtain ⟨t, ht0, ht1, heq, i, hiold, hinew⟩ :=
        clipPoint_spec_p2 rect p1 p2 (not_ne_iff.mp h3) hne2
      have hsub : violSet rect p1 (clipPoint rect p1 p2 (computeCode rect p2)) ⊆
          violSet rect p1 p2 := by
        rw [heq]
        exact violSet_subset_p2 rect p1 p2 ht0 ht1
      have hss := (Finset.ssubset_iff_of_subset hsub).mpr ⟨i, hiold, hinew⟩
      exact ih _ _ (lt_of_lt_of_le (Finset.card_lt_card hss) (Nat.lt_succ_iff.mp hcard))

/-- C10: for every pair of endpoints (exact rational coordinates) and every
non-degenerate viewport rectangle, the region-code clipping loop terminates
within its fuel bound of 5 iterations: each clip moves the outside endpoint
onto a violated boundary, strictly shrinking the set of violated
half-planes, until both codes are zero or a trivial reject occurs. -/
theorem C10_clip_loop_terminates (rect : Rect) (p q : Pos)
    (hx : rect.minx ≤ rect.maxx) (hy : rect.miny ≤ rect.maxy) :
    (clipLoop rect 5 p q).isSome := by
  apply clipLoop_isSome_of_fuel rect hx hy 5 p q
  have h4 : (violSet rect p q).card ≤ 4 := by
    calc (violSet rect p q).card ≤ (Finset.univ : Finset (Fin 4)).card :=
          Finset.card_filter_le _ _
      _ = 4 := by simp
  omega

/-- Witness for C10 on a concrete rectangle and a same-side-outside pair. -/
theorem C10_clip_loop_terminates_witness :
    ((⟨0, 0, 10, 10⟩ : Rect).minx ≤ (⟨0, 0, 10, 10⟩ : Rect).maxx) ∧
      ((⟨0, 0, 10, 10⟩ : Rect).miny ≤ (⟨0, 0, 10, 10⟩ : Rect).maxy) ∧
      (clipLoop ⟨0, 0, 10, 10⟩ 5 ⟨-5, 3⟩ ⟨20, 7⟩).isSome :=
  ⟨by norm_num, by norm_num,
    C10_clip_loop_terminates ⟨0, 0, 10, 10⟩ ⟨-5, 3⟩ ⟨20, 7⟩ (by norm_num) (by norm_num)⟩

/-- C9: whenever the line-clipping function returns `some (a, b)`, both
returned points have region code zero — every coordinate lies between the
rectangle's min and max — and both lie on the original segment. -/
theorem C9_clip_within_and_on_segment (rect : Rect) (p q a b : Pos)
    (h : line_rect_intersection p q rect = some (a, b)) :
    computeCode rect a = 0 ∧ computeCode rect b = 0 ∧
      rect.minx ≤ a.x ∧ a.x ≤ rect.maxx ∧ rect.miny ≤ a.y ∧ a.y ≤ rect.maxy ∧
      rect.minx ≤ b.x ∧ b.x ≤ rect.maxx ∧ rect.miny ≤ b.y ∧ b.y ≤ rect.maxy ∧
      onSeg p q a ∧ onSeg p q b := by
  have hcl : clipLoop rect 5 p q = some (some (a, b)) := by
    unfold line_rect_intersection at h
    rcases hc : clipLoop rect 5 p q with _ | res
    · rw [hc] at h
      simp at h
    · rw [hc] at h
      simpa using h
  obtain ⟨hca, hcb⟩ := clipLoop_some_codes rect 5 p q a b hcl
  obtain ⟨ha1, ha2, ha3, ha4⟩ := (computeCode_eq_zero rect a).mp hca
  obtain ⟨hb1, hb2, hb3, hb4⟩ := (computeCode_eq_zero rect b).mp hcb
  have hxnd : rect.minx ≤ rect.maxx := le_trans ha1 ha2
  have hynd : rect.miny ≤ rect.maxy := le_trans ha3 ha4
  obtain ⟨hsa, hsb⟩ := clipLoop_some_onSeg rect hxnd hynd p q 5 p q a b
    (onSeg_left p q) (onSeg_right p q) hcl
  exact ⟨hca, hcb, ha1, ha2, ha3, ha4, hb1, hb2, hb3, hb4, hsa, hsb⟩

/-- Witness for C9 on a concrete fully-inside segment. -/
theorem C9_clip_within_and_on_segment_witness :
    line_rect_intersection ⟨2, 3⟩ ⟨8, 4⟩ ⟨0, 0, 10, 10⟩ = some (⟨2, 3⟩, ⟨8, 4⟩) ∧
      (computeCode ⟨0, 0, 10, 10⟩ ⟨2, 3⟩ = 0 ∧ computeCode ⟨0, 0, 10, 10⟩ ⟨8, 4⟩ = 0 ∧
        (⟨0, 0, 10, 10⟩ : Rect).minx ≤ (⟨2, 3⟩ : Pos).x ∧
        (⟨2, 3⟩ : Pos).x ≤ (⟨0, 0, 10, 10⟩ : Rect).maxx ∧
        (⟨0, 0, 10, 10⟩ : Rect).miny ≤ (⟨2, 3⟩ : Pos).y ∧
        (⟨2, 3⟩ : Pos).y ≤ (⟨0, 0, 10, 10⟩ : Rect).maxy ∧
        (⟨0, 0, 10, 10⟩ : Rect).minx ≤ (⟨8, 4⟩ : Pos).x ∧
        (⟨8, 4⟩ : Pos).x ≤ (⟨0, 0, 10, 10⟩ : Rect).maxx ∧
        (⟨0, 0, 10, 10⟩ : Rect).miny ≤ (⟨8, 4⟩ : Pos).y ∧
        (⟨8, 4⟩ : Pos).y ≤ (⟨0, 0, 10, 10⟩ : Rect).maxy ∧
        onSeg ⟨2, 3⟩ ⟨8, 4⟩ ⟨2, 3⟩ ∧ onSeg ⟨2, 3⟩ ⟨8, 4⟩ ⟨8, 4⟩) :=
  ⟨by decide, C9_clip_within_and_on_segment ⟨0, 0, 10, 10⟩ ⟨2, 3⟩ ⟨8, 4⟩ ⟨2, 3⟩ ⟨8, 4⟩ (by decide)⟩

/-- Both endpoints strictly outside the viewport on one common side. -/
def sameSideOutside (rect : Rect) (p q : Pos) : Prop :=
  (p.x < rect.minx ∧ q.x < rect.minx) ∨ (rect.maxx < p.x ∧ rect.maxx < q.x) ∨
    (p.y < rect.miny ∧ q.y < rect.miny) ∨ (rect.maxy < p.y ∧ rect.maxy < q.y)

/-- C5: for a segment whose two projected endpoints lie strictly outside a
(non-degenerate) viewport on the same side, the region codes' bitwise AND
is nonzero, the clipping step reports "fully outside" (no visible
sub-segment), zero arrows are generated, and the full unclipped line is
still drawn. -/
theorem C5_same_side_outside_no_arrows (rect : Rect) (p q : Pos)
    (hx : rect.minx ≤ rect.maxx) (hy : rect.miny ≤ rect.maxy)
    (h : sameSideOutside rect p q) :
    computeCode rect p &&& computeCode rect q ≠ 0 ∧
      line_rect_intersection p q rect = none ∧
      segmentArrows rect p q = [] ∧
      (renderSegment rect p q).drawnLine = some (p, q) := by
  have hAND : computeCode rect p &&& computeCode rect q ≠ 0 := by
    apply code_common_bit _ (computeCode_mem rect p) _ (computeCode_mem rect q)
    rcases h with ⟨h1, h2⟩ | ⟨h1, h2⟩ | ⟨h1, h2⟩ | ⟨h1, h2⟩
    · exact Or.inl ⟨(computeCode_and_one rect p).mpr h1, (computeCode_and_one rect q).mpr h2⟩
    · exact Or.inr (Or.inl ⟨(computeCode_and_two rect p).mpr ⟨by linarith, h1⟩,
        (computeCode_and_two rect q).mpr ⟨by linarith, h2⟩⟩)
    · exact Or.inr (Or.inr (Or.inl ⟨(computeCode_and_eight rect p).mpr h1,
        (computeCode_and_eight rect q).mpr h2⟩))
    · exact Or.inr (Or.inr (Or.inr ⟨(computeCode_and_four rect p).mpr ⟨by linarith, h1⟩,
        (computeCode_and_four rect q).mpr ⟨by linarith, h2⟩⟩))
  have hnotboth : ¬(computeCode rect p = 0 ∧ computeCode rect q = 0) := by
    rintro ⟨hz1, _⟩
    rw [hz1] at hAND
    simp at hAND
  have hloop : clipLoop rect 5 p q = some none := by
    simp only [clipLoop]
    rw [if_neg hnotboth, if_pos hAND]
  have hnone : line_rect_intersection p q rect = none := by
    unfold line_rect_intersection
    rw [hloop]
  refine ⟨hAND, hnone, ?_, rfl⟩
  simp [segmentArrows, hnone]

/-- Witness for C5 with both endpoints strictly left of the viewport. -/
theorem C5_same_side_outside_no_arrows_witness :
    sameSideOutside ⟨0, 0, 10, 10⟩ ⟨-5, 2⟩ ⟨-3, 7⟩ ∧
      (computeCode ⟨0, 0, 10, 10⟩ ⟨-5, 2⟩ &&& computeCode ⟨0, 0, 10, 10⟩ ⟨-3, 7⟩ ≠ 0 ∧
        line_rect_intersection ⟨-5, 2⟩ ⟨-3, 7⟩ ⟨0, 0, 10, 10⟩ = none ∧
        segmentArrows ⟨0, 0, 10, 10⟩ ⟨-5, 2⟩ ⟨-3, 7⟩ = [] ∧
        (renderSegment ⟨0, 0, 10, 10⟩ ⟨-5, 2⟩ ⟨-3, 7⟩).drawnLine = some (⟨-5, 2⟩, ⟨-3, 7⟩)) :=
  ⟨by unfold sameSideOutside; norm_num,
    C5_same_side_outside_no_arrows ⟨0, 0, 10, 10⟩ ⟨-5, 2⟩ ⟨-3, 7⟩ (by norm_num) (by norm_num)
      (by unfold sameSideOutside; norm_num)⟩

end Traced
